import Mathlib

/-!
Verification of the kssthread concurrency toolkit against its specification.

The development shallowly embeds the state and the operations of the
repository sources:

* `ActionQueue` (Sources/action_queue.cpp, both revisions): the pending
  multimap keyed by deadline, `addActionDetails` / `addActionAfter`,
  `cancel`, the exit predicate of `wait`, and the background loop
  `runActionThread` (modelled one iteration at a time, the wall clock at
  each iteration supplied as a list of sample times).
* `RepeatingAction::runActionAndRequeue`, with the outcome of each
  re-submission attempt supplied as a trace.
* `Condition::waitFor` / `waitUntil` (synchronizer header, both revisions),
  with the predicate samples and the condition-variable outcome supplied
  as oracles.
* `Barrier::waitFor` / `waitUntil` with `incrementCounterAndCheck`
  (synchronizer.cpp), with the counter values observed after re-acquiring
  the lock supplied as oracles so that interference by other parties can
  be expressed.
* The cooperative-cancellation machinery of interruptible.cpp:
  `onInterrupted`, the `cleanup` handler walk, and `interruptible::doCall`
  with its platform-conditional catch clauses.

Machine integers: the C++ sizes and counters are `size_t` / `unsigned`;
all arithmetic on them here stays far below any overflow boundary, so they
are modelled as `Nat`.  Callables are opaque: an action is represented by
a token (`Nat`), since no claim depends on what an action computes.
-/

namespace KssThread

/-- errno value used by the retryable resource-exhausted throw sites. -/
def EAGAIN : Nat := 11

/-- A thrown std::system_error: its errno code and its what-string. -/
structure SysError where
  code : Nat
  what : String
deriving DecidableEq

/-- Result of a std::condition_variable timed wait. -/
inductive CvStatus where
  | timeout
  | no_timeout
deriving DecidableEq

/-- One entry of the pending multimap of the ActionQueue.  In the source the
multimap key is always `details.targetTime`, so the key is not duplicated
here.  The callable is an opaque token. -/
structure ActionDetails where
  targetTime : Nat
  identifier : String
  action : Nat
deriving DecidableEq

/-- `std::multimap::emplace` on the pending map: insert before the first
entry with a strictly larger deadline, i.e. after every entry whose
deadline is less than or equal to the new one (ties keep submission
order). -/
def pendingEmplace (d : ActionDetails) : List ActionDetails → List ActionDetails
  | [] => [d]
  | e :: rest =>
      if d.targetTime < e.targetTime then d :: e :: rest
      else e :: pendingEmplace d rest

/-- Deadline order on pending entries. -/
def deadlineLe (a b : ActionDetails) : Prop := a.targetTime ≤ b.targetTime

instance : DecidableRel deadlineLe :=
  fun a b => Nat.decLe a.targetTime b.targetTime

/-- The fields of ActionQueue::Impl that the claims are about (the mutex,
condition variable and thread handle are represented by the state machine
itself). -/
structure ActionQueueState where
  maxPending : Nat
  stopping : Bool
  waiting : Bool
  runningAction : Bool
  pendingActions : List ActionDetails
deriving DecidableEq

/-- ActionQueue::Impl::addActionDetails.  Mirrors the source: nothing at all
happens when `stopping` is set; otherwise a wait in progress or a full
queue throws EAGAIN (modelled as `some` error, the state unchanged since
the throw happens before any mutation); otherwise the entry is emplaced.
Both revisions of action_queue.cpp have the same branch structure. -/
def addActionDetails (s : ActionQueueState) (details : ActionDetails) :
    ActionQueueState × Option SysError :=
  if s.stopping = false then
    if s.waiting = true then
      (s, some ⟨EAGAIN, "addActionAfter (queue waiting)"⟩)
    else if s.maxPending ≤ s.pendingActions.length then
      (s, some ⟨EAGAIN, "addActionAfter"⟩)
    else
      ({ s with pendingActions := pendingEmplace details s.pendingActions }, none)
  else (s, none)

/-- ActionQueue::addActionAfter: builds the details with target time
`now + delay` and hands them to `addActionDetails`.  The contract
precondition `delay.count() >= 0` is reflected by taking the delay as a
`Nat`. -/
def addActionAfter (s : ActionQueueState) (nowT : Nat) (delay : Nat)
    (identifier : String) (action : Nat) : ActionQueueState × Option SysError :=
  addActionDetails s ⟨nowT + delay, identifier, action⟩

/-- The erase loop of ActionQueue::cancel for a non-empty identifier:
walks the pending map, erasing every entry whose identifier matches,
counting the erased entries. -/
def cancelErase (identifier : String) :
    List ActionDetails → Nat × List ActionDetails
  | [] => (0, [])
  | d :: rest =>
      let r := cancelErase identifier rest
      if d.identifier = identifier then (r.1 + 1, r.2)
      else (r.1, d :: r.2)

/-- ActionQueue::cancel: an empty pending map returns 0; an empty identifier
clears the whole map and returns its former size; otherwise the erase loop
runs.  Only `pendingActions` is touched. -/
def cancel (s : ActionQueueState) (identifier : String) : Nat × ActionQueueState :=
  if s.pendingActions.isEmpty then (0, s)
  else if identifier = ("") then
    (s.pendingActions.length, { s with pendingActions := [] })
  else
    ((cancelErase identifier s.pendingActions).1,
     { s with pendingActions := (cancelErase identifier s.pendingActions).2 })

/-- The predicate on which ActionQueue::wait blocks: revision one waits on
`stopping || (pendingActions.empty() && !runningAction)`, revision two
loops `while (!stopping && (!pendingActions.empty() || runningAction))`;
the two are the same condition. -/
def waitExitCondition (s : ActionQueueState) : Bool :=
  s.stopping || (s.pendingActions.isEmpty && !s.runningAction)

/-- The pop step of ActionQueue::Impl::runActionThread, performed under the
lock: if the first entry of the pending map is due, mark an action as
running and remove that first entry (and only that entry). -/
def popDueAction (s : ActionQueueState) (currentTime : Nat) :
    Option ActionDetails × ActionQueueState :=
  match s.pendingActions with
  | [] => (none, s)
  | d :: rest =>
      if d.targetTime ≤ currentTime then
        (some d, { s with runningAction := true, pendingActions := rest })
      else (none, s)

/-- One iteration of the background loop: the pop step followed, when an
action was popped, by running it to completion (after which
`runningAction` is cleared and the waiters are notified).  The executed
action, if any, is returned. -/
def runActionThreadIteration (s : ActionQueueState) (currentTime : Nat) :
    ActionQueueState × Option ActionDetails :=
  match popDueAction s currentTime with
  | (some d, s1) => ({ s1 with runningAction := false }, some d)
  | (none, s1) => (s1, none)

/-- The background loop of runActionThread, one entry of `times` being the
wall-clock sample of one iteration; the loop stops when `stopping` is set.
Returns the final state and the trace of executed actions in execution
order. -/
def runActionThread (s : ActionQueueState) :
    List Nat → ActionQueueState × List ActionDetails
  | [] => (s, [])
  | t :: ts =>
      if s.stopping then (s, [])
      else
        match runActionThreadIteration s t with
        | (s1, some d) =>
            ((runActionThread s1 ts).1, d :: (runActionThread s1 ts).2)
        | (s1, none) => runActionThread s1 ts

/-- Condition::waitFor / Condition::waitUntil, second revision of the
synchronizer header: sample the predicate under the lock; when false,
wait on the condition variable; a timed-out wait returns false at once
(the predicate is not consulted again on that path); a wake without
timeout returns the predicate sampled at that moment.  `waitResult` is
the outcome of the cv wait and `predAtWake` the predicate value at the
post-wake sample point. -/
def conditionWaitFor (predAtEntry : Bool) (waitResult : CvStatus)
    (predAtWake : Bool) : Bool :=
  if predAtEntry then true
  else
    match waitResult with
    | CvStatus.timeout => false
    | CvStatus.no_timeout => predAtWake

/-- Condition::waitFor / waitUntil, first revision: an extra
`checkPredicate()` sample (its own lock acquisition) precedes the locked
entry sample; the remainder is identical to the second revision. -/
def conditionWaitForChecked (predAtCheck : Bool) (predAtEntry : Bool)
    (waitResult : CvStatus) (predAtWake : Bool) : Bool :=
  if predAtCheck then true
  else if predAtEntry then true
  else
    match waitResult with
    | CvStatus.timeout => false
    | CvStatus.no_timeout => predAtWake

/-- The fields of a Barrier: the arrival counter and the fixed party
count n. -/
structure BarrierState where
  counter : Nat
  n : Nat
deriving DecidableEq

/-- Barrier::incrementCounterAndCheck (synchronizer.cpp): under the lock,
increment the counter and test it against n; when the threshold is
reached, notify all waiters and report true.  The returned Bool is also
exactly "cv.notify_all was called". -/
def incrementCounterAndCheck (s : BarrierState) : Bool × BarrierState :=
  let s2 : BarrierState := { s with counter := s.counter + 1 }
  if s.n ≤ s2.counter then (true, s2) else (false, s2)

/-- Outcome of one Barrier::waitFor / waitUntil call: the returned Bool,
the counter left behind by this party, and whether this call performed
the notify-all. -/
structure BarrierWaitResult where
  result : Bool
  counterAfter : Nat
  wokeAll : Bool
deriving DecidableEq

/-- Barrier::waitFor / waitUntil, first revision of the synchronizer
header: `incrementCounterAndCheck`, then, when the threshold was not
reached by the own increment, the lock is re-acquired (other parties may
have arrived or reset meanwhile, so the re-read counter
`counterAtRelock` is an oracle); if the counter is still below n the cv
wait runs, and on timeout the counter observed at wake
(`counterAtWake`, again an oracle) is decremented when at least 1; the
call finally returns the comparison of the current counter against n. -/
def barrierWaitFor (s : BarrierState) (counterAtRelock : Nat)
    (waitResult : CvStatus) (counterAtWake : Nat) : BarrierWaitResult :=
  match incrementCounterAndCheck s with
  | (true, s2) => ⟨true, s2.counter, true⟩
  | (false, _) =>
      if counterAtRelock < s.n then
        match waitResult with
        | CvStatus.no_timeout => ⟨decide (s.n ≤ counterAtWake), counterAtWake, false⟩
        | CvStatus.timeout =>
            let c2 := if 1 ≤ counterAtWake then counterAtWake - 1 else counterAtWake
            ⟨decide (s.n ≤ c2), c2, false⟩
      else ⟨decide (s.n ≤ counterAtRelock), counterAtRelock, false⟩

/-- Outcome of one ActionQueue::addAction call made by the repeating
wrapper, as observed by the wrapper: normal return, or a thrown
std::system_error. -/
inductive AddOutcome where
  | ok
  | err (e : SysError)
deriving DecidableEq

/-- Observable result of RepeatingAction::runActionAndRequeue: a normal
return recording how many times the user action ran, how many
re-submission attempts were made and how many interval sleeps happened;
or an error propagated to the caller; or the supplied outcome trace was
exhausted. -/
inductive RunResult where
  | done (actionRuns : Nat) (submitAttempts : Nat) (sleeps : Nat)
  | propagated (e : SysError) (actionRuns : Nat) (submitAttempts : Nat)
  | outOfTrace
deriving DecidableEq

/-- RepeatingAction::runActionAndRequeue.  When not stopping the user
action runs, then addAction is attempted (consuming the next entry of
the outcome trace).  A thrown system_error with code EAGAIN makes the
wrapper sleep one interval and call `internalAction()`, which is this
very function again; any other error is rethrown.  Both revisions of
action_queue.cpp have this exact structure. -/
def runActionAndRequeue (stopping : Bool) : List AddOutcome → RunResult
  | [] => RunResult.outOfTrace
  | o :: rest =>
      if stopping then RunResult.done 0 0 0
      else
        match o with
        | AddOutcome.ok => RunResult.done 1 1 0
        | AddOutcome.err e =>
            if e.code = EAGAIN then
              match runActionAndRequeue stopping rest with
              | RunResult.done a t sl => RunResult.done (a + 1) (t + 1) (sl + 1)
              | RunResult.propagated e2 a t => RunResult.propagated e2 (a + 1) (t + 1)
              | RunResult.outOfTrace => RunResult.outOfTrace
            else RunResult.propagated e 1 1

/-- kss::thread::onInterrupted (interruptible.cpp): push_back of the
handler onto the thread-local list.  Handlers are opaque tokens. -/
def onInterrupted (fns : List Nat) (fn : Nat) : List Nat := fns ++ [fn]

/-- The cleanup routine of interruptible.cpp: walk the registered handler
list front to back, invoking each handler; the result is the invocation
trace. -/
def cleanup : List Nat → List Nat
  | [] => []
  | fn :: rest => fn :: cleanup rest

/-- The handler list built when a cancellable region registers the given
handlers in order: the Guard clears the thread-local list on entry, then
each registration appends. -/
def registerAll (handlers : List Nat) : List Nat :=
  handlers.foldl onInterrupted []

/-- The two platform branches of the preprocessor conditionals in
interruptible.cpp. -/
inductive OsKind where
  | linuxOs
  | appleOs
deriving DecidableEq

/-- How the body passed to interruptible::doCall terminates: normal return,
delivery of the thread-cancellation unwind at a cancellation point inside
it, or an ordinary exception (its payload an opaque token). -/
inductive BodyOutcome where
  | normal
  | cancelled
  | error (e : Nat)
deriving DecidableEq

/-- What the caller of interruptible::doCall observes: a normal return of
the region, the forced unwind continuing past the region (the thread
exits), or an ordinary exception rethrown to the caller.  Each carries
the trace of cleanup handlers that ran. -/
inductive DoCallResult where
  | normalReturn (handlersRun : List Nat)
  | threadUnwind (handlersRun : List Nat)
  | raised (e : Nat) (handlersRun : List Nat)
deriving DecidableEq

/-- interruptible::doCall with the registered handler list `fns`.  A normal
return pops the cleanup without executing it; an ordinary exception is
caught, saved and rethrown after the pop, the cleanup again not
executed.  On cancellation the platforms differ: on Linux the
abi forced-unwind is caught and immediately rethrown, the pthread
machinery running the pushed cleanup while the whole thread unwinds; on
Apple the pthread machinery calls the cleanup (which runs the handlers
and throws the private Interrupted marker), and doCall catches
Interrupted and absorbs it, so the region returns normally. -/
def doCall (p : OsKind) (fns : List Nat) (outcome : BodyOutcome) : DoCallResult :=
  match outcome with
  | BodyOutcome.normal => DoCallResult.normalReturn []
  | BodyOutcome.error e => DoCallResult.raised e []
  | BodyOutcome.cancelled =>
      match p with
      | OsKind.linuxOs => DoCallResult.threadUnwind (cleanup fns)
      | OsKind.appleOs => DoCallResult.normalReturn (cleanup fns)

/-- Discriminator: did doCall return normally to its caller. -/
def isNormalReturn : DoCallResult → Bool
  | DoCallResult.normalReturn _ => true
  | _ => false

/-- Discriminator: did doCall rethrow an ordinary, catchable exception to
its caller. -/
def isRaised : DoCallResult → Bool
  | DoCallResult.raised _ _ => true
  | _ => false

/-! Helper lemmas. -/

/-- Membership in an emplaced pending map. -/
lemma mem_pendingEmplace {d x : ActionDetails} :
    ∀ {l : List ActionDetails}, x ∈ pendingEmplace d l → x = d ∨ x ∈ l := by
  intro l
  induction l with
  | nil =>
      intro h
      simp only [pendingEmplace, List.mem_singleton] at h
      exact Or.inl h
  | cons e rest ih =>
      intro h
      by_cases hc : d.targetTime < e.targetTime
      · simp only [pendingEmplace, if_pos hc, List.mem_cons] at h
        rcases h with h | h | h
        · exact Or.inl h
        · exact Or.inr (by simp [h])
        · exact Or.inr (by simp [h])
      · simp only [pendingEmplace, if_neg hc, List.mem_cons] at h
        rcases h with h | h
        · exact Or.inr (by simp [h])
        · rcases ih h with h2 | h2
          · exact Or.inl h2
          · exact Or.inr (by simp [h2])

/-- Emplacing preserves the deadline ordering of the pending map. -/
lemma pendingEmplace_pairwise (d : ActionDetails) :
    ∀ l : List ActionDetails, l.Pairwise deadlineLe →
      (pendingEmplace d l).Pairwise deadlineLe := by
  intro l
  induction l with
  | nil =>
      intro _
      simp [pendingEmplace]
  | cons e rest ih =>
      intro h
      rw [List.pairwise_cons] at h
      obtain ⟨he, hrest⟩ := h
      by_cases hc : d.targetTime < e.targetTime
      · simp only [pendingEmplace, if_pos hc]
        refine List.Pairwise.cons ?_ (List.Pairwise.cons he hrest)
        intro x hx
        rcases List.mem_cons.mp hx with hx1 | hx2
        · subst hx1
          exact Nat.le_of_lt hc
        · exact Nat.le_trans (Nat.le_of_lt hc) (he x hx2)
      · simp only [pendingEmplace, if_neg hc]
        refine List.Pairwise.cons ?_ (ih hrest)
        intro x hx
        rcases mem_pendingEmplace hx with hx1 | hx2
        · subst hx1
          exact Nat.le_of_not_lt hc
        · exact he x hx2

/-- A new entry whose deadline is not earlier than any pending deadline is
emplaced at the very end: ties are broken by submission order. -/
lemma pendingEmplace_append (d : ActionDetails) :
    ∀ l : List ActionDetails, (∀ e ∈ l, e.targetTime ≤ d.targetTime) →
      pendingEmplace d l = l ++ [d] := by
  intro l
  induction l with
  | nil =>
      intro _
      simp [pendingEmplace]
  | cons e rest ih =>
      intro h
      have he : e.targetTime ≤ d.targetTime := h e (by simp)
      have hc : ¬ d.targetTime < e.targetTime := Nat.not_lt.mpr he
      simp only [pendingEmplace, if_neg hc, List.cons_append, List.cons.injEq,
        true_and]
      exact ih (fun x hx => h x (by simp [hx]))

/-- The erase loop of cancel produces the matching count and the
non-matching remainder. -/
lemma cancelErase_spec (identifier : String) :
    ∀ l : List ActionDetails,
      cancelErase identifier l =
        (l.countP (fun d => d.identifier == identifier),
         l.filter (fun d => !(d.identifier == identifier))) := by
  intro l
  induction l with
  | nil => rfl
  | cons d rest ih =>
      by_cases hd : d.identifier = identifier
      · simp [cancelErase, ih, hd, List.countP_cons, List.filter_cons]
      · simp [cancelErase, ih, hd, List.countP_cons, List.filter_cons]

/-- The background loop executes a prefix of the pending map, in order, and
leaves the matching suffix pending; at the end of every iteration no
action is marked running. -/
lemma runActionThread_take_drop :
    ∀ (ts : List Nat) (s : ActionQueueState), s.runningAction = false →
      ∃ k, (runActionThread s ts).2 = s.pendingActions.take k ∧
        (runActionThread s ts).1.pendingActions = s.pendingActions.drop k ∧
        (runActionThread s ts).1.runningAction = false := by
  intro ts
  induction ts with
  | nil =>
      intro s hs
      exact ⟨0, by simp [runActionThread], by simp [runActionThread],
        by simp [runActionThread, hs]⟩
  | cons t ts ih =>
      intro s hs
      by_cases hstop : s.stopping = true
      · refine ⟨0, ?_, ?_, ?_⟩ <;> simp [runActionThread, hstop, hs]
      · rw [Bool.not_eq_true] at hstop
        cases hp : s.pendingActions with
        | nil =>
            have hiter : runActionThreadIteration s t = (s, none) := by
              simp [runActionThreadIteration, popDueAction, hp]
            have hrun : runActionThread s (t :: ts) = runActionThread s ts := by
              simp [runActionThread, hstop, hiter]
            obtain ⟨k, h1, h2, h3⟩ := ih s hs
            rw [hp] at h1 h2
            exact ⟨k, by rw [hrun]; exact h1, by rw [hrun]; exact h2,
              by rw [hrun]; exact h3⟩
        | cons d rest =>
            by_cases hdue : d.targetTime ≤ t
            · have hiter : runActionThreadIteration s t = ({ s with runningAction := false, pendingActions := rest }, some d) := by
                simp [runActionThreadIteration, popDueAction, hp, hdue]
              obtain ⟨k, h1, h2, h3⟩ :=
                ih { s with runningAction := false, pendingActions := rest } rfl
              have hrun : runActionThread s (t :: ts) = ((runActionThread { s with runningAction := false, pendingActions := rest } ts).1, d :: (runActionThread { s with runningAction := false, pendingActions := rest } ts).2) := by
                simp [runActionThread, hstop, hiter]
              refine ⟨k + 1, ?_, ?_, ?_⟩ <;>
                simp [hrun, List.take_succ_cons, List.drop_succ_cons,
                  h1, h2, h3]
            · have hiter : runActionThreadIteration s t = (s, none) := by
                simp [runActionThreadIteration, popDueAction, hp, hdue]
              have hrun : runActionThread s (t :: ts) = runActionThread s ts := by
                simp [runActionThread, hstop, hiter]
              obtain ⟨k, h1, h2, h3⟩ := ih s hs
              rw [hp] at h1 h2
              exact ⟨k, by rw [hrun]; exact h1, by rw [hrun]; exact h2,
                by rw [hrun]; exact h3⟩

/-- The cleanup walk invokes exactly the registered handlers, in list
order. -/
lemma cleanup_eq : ∀ l : List Nat, cleanup l = l := by
  intro l
  induction l with
  | nil => rfl
  | cons fn rest ih => simp [cleanup, ih]

/-- Folding registrations over onInterrupted appends them in order. -/
lemma foldl_onInterrupted :
    ∀ (handlers acc : List Nat),
      handlers.foldl onInterrupted acc = acc ++ handlers := by
  intro handlers
  induction handlers with
  | nil => intro acc; simp
  | cons h rest ih =>
      intro acc
      simp [List.foldl_cons, onInterrupted, ih]

/-- Filtering out the matches and counting the matches partition the
length of a list. -/
lemma length_filter_not_add_countP {α : Type} (p : α → Bool) (l : List α) :
    (l.filter (fun a => !(p a))).length + l.countP p = l.length := by
  induction l with
  | nil => rfl
  | cons a l ih =>
      by_cases h : p a <;>
        simp [List.filter_cons, List.countP_cons, h, ← ih] <;> omega

/-! The claims. -/

/-- C1: within one ActionQueue the background thread pops only the first
element of the deadline-ordered pending multimap and runs it to
completion before popping another, so for two pending actions the one
earlier in deadline order (ties by submission order) is never started
after the other, and at most one action executes at a time.  Formally:
from a deadline-sorted pending map with no action running, any run of the
loop executes a prefix of the map in map order, leaves exactly the
matching suffix pending, ends every iteration with no action marked
running, and emplacing keeps the map deadline-sorted with a
late-or-equal-deadline submission placed after all existing entries. -/
theorem runActionThread_deadline_order :
    ∀ (s : ActionQueueState) (ts : List Nat) (d : ActionDetails),
      s.pendingActions.Pairwise deadlineLe → s.runningAction = false →
      (∃ k, (runActionThread s ts).2 = s.pendingActions.take k ∧
        (runActionThread s ts).1.pendingActions = s.pendingActions.drop k) ∧
      (runActionThread s ts).2.Pairwise deadlineLe ∧
      (runActionThread s ts).1.runningAction = false ∧
      (pendingEmplace d s.pendingActions).Pairwise deadlineLe ∧
      ((∀ e ∈ s.pendingActions, e.targetTime ≤ d.targetTime) →
        pendingEmplace d s.pendingActions = s.pendingActions ++ [d]) := by
  intro s ts d hsort hrun
  obtain ⟨k, h1, h2, h3⟩ := runActionThread_take_drop ts s hrun
  refine ⟨⟨k, h1, h2⟩, ?_, h3, pendingEmplace_pairwise d _ hsort,
    fun hd => pendingEmplace_append d _ hd⟩
  rw [h1]
  exact List.Pairwise.sublist (List.take_sublist k s.pendingActions) hsort

/-- C1 witness: a queue holding two actions with deadlines 1 and 2, run for
two iterations sampled at times 5 and 6. -/
theorem runActionThread_deadline_order_witness :
    (∃ k,
      (runActionThread
        { maxPending := 10, stopping := false, waiting := false,
          runningAction := false,
          pendingActions := [⟨1, "a", 0⟩, ⟨2, "b", 1⟩] } [5, 6]).2 =
        List.take k [⟨1, "a", 0⟩, ⟨2, "b", 1⟩] ∧
      (runActionThread
        { maxPending := 10, stopping := false, waiting := false,
          runningAction := false,
          pendingActions := [⟨1, "a", 0⟩, ⟨2, "b", 1⟩] } [5, 6]).1.pendingActions =
        List.drop k [⟨1, "a", 0⟩, ⟨2, "b", 1⟩]) ∧
    ((runActionThread
        { maxPending := 10, stopping := false, waiting := false,
          runningAction := false,
          pendingActions := [⟨1, "a", 0⟩, ⟨2, "b", 1⟩] } [5, 6]).2).Pairwise deadlineLe ∧
    (runActionThread
        { maxPending := 10, stopping := false, waiting := false,
          runningAction := false,
          pendingActions := [⟨1, "a", 0⟩, ⟨2, "b", 1⟩] } [5, 6]).1.runningAction = false ∧
    (pendingEmplace ⟨2, "c", 2⟩ [⟨1, "a", 0⟩, ⟨2, "b", 1⟩]).Pairwise deadlineLe ∧
    pendingEmplace ⟨2, "c", 2⟩ [⟨1, "a", 0⟩, ⟨2, "b", 1⟩] =
      [⟨1, "a", 0⟩, ⟨2, "b", 1⟩] ++ [⟨2, "c", 2⟩] := by
  have h := runActionThread_deadline_order
    { maxPending := 10, stopping := false, waiting := false,
      runningAction := false,
      pendingActions := [⟨1, "a", 0⟩, ⟨2, "b", 1⟩] } [5, 6] ⟨2, "c", 2⟩
    (by decide) rfl
  exact ⟨h.1, h.2.1, h.2.2.1, h.2.2.2.1, h.2.2.2.2 (by decide)⟩

/-- C3: addActionAfter on a live (not stopping) queue throws EAGAIN when a
wait is draining the queue or when the pending map already holds
maxPending entries, leaving the pending map unchanged; otherwise it
emplaces an entry with deadline now + delay. -/
theorem addActionAfter_backpressure :
    ∀ (s : ActionQueueState) (nowT delay : Nat) (identifier : String)
      (action : Nat),
      s.stopping = false →
      ((s.waiting = true ∨ s.maxPending ≤ s.pendingActions.length) →
        (addActionAfter s nowT delay identifier action).1 = s ∧
        ∃ e, (addActionAfter s nowT delay identifier action).2 = some e ∧
          e.code = EAGAIN) ∧
      (s.waiting = false → s.pendingActions.length < s.maxPending →
        addActionAfter s nowT delay identifier action =
          ({ s with
              pendingActions :=
                pendingEmplace ⟨nowT + delay, identifier, action⟩
                  s.pendingActions }, none)) := by
  intro s nowT delay identifier action hstop
  constructor
  · intro hful
    by_cases hw : s.waiting = true
    · refine ⟨?_, ⟨EAGAIN, "addActionAfter (queue waiting)"⟩, ?_, rfl⟩ <;>
        simp [addActionAfter, addActionDetails, hstop, hw]
    · rw [Bool.not_eq_true] at hw
      have hcap : s.maxPending ≤ s.pendingActions.length := by
        rcases hful with h | h
        · rw [hw] at h
          cases h
        · exact h
      refine ⟨?_, ⟨EAGAIN, "addActionAfter"⟩, ?_, rfl⟩ <;>
        simp [addActionAfter, addActionDetails, hstop, hw, hcap]
  · intro hw hcap
    simp [addActionAfter, addActionDetails, hstop, hw, Nat.not_le.mpr hcap]

/-- C3 witness: a draining queue rejects with EAGAIN and is unchanged; a
queue with room accepts and emplaces at now + delay. -/
theorem addActionAfter_backpressure_witness :
    ((addActionAfter
        { maxPending := 4, stopping := false, waiting := true,
          runningAction := false, pendingActions := [] } 7 5 ("id1") 0).1 =
      { maxPending := 4, stopping := false, waiting := true,
        runningAction := false, pendingActions := [] } ∧
      ∃ e, (addActionAfter
        { maxPending := 4, stopping := false, waiting := true,
          runningAction := false, pendingActions := [] } 7 5 ("id1") 0).2 =
          some e ∧ e.code = EAGAIN) ∧
    addActionAfter
        { maxPending := 4, stopping := false, waiting := false,
          runningAction := false, pendingActions := [] } 7 5 ("id1") 0 =
      ({ maxPending := 4, stopping := false, waiting := false,
         runningAction := false,
         pendingActions := pendingEmplace ⟨7 + 5, "id1", 0⟩ [] }, none) := by
  refine ⟨(addActionAfter_backpressure
      { maxPending := 4, stopping := false, waiting := true,
        runningAction := false, pendingActions := [] } 7 5 ("id1") 0 rfl).1
      (Or.inl rfl),
    (addActionAfter_backpressure
      { maxPending := 4, stopping := false, waiting := false,
        runningAction := false, pendingActions := [] } 7 5 ("id1") 0 rfl).2
      rfl (by decide)⟩

/-- C4: cancel with a non-empty identifier removes exactly the pending
entries carrying that identifier and returns their number, leaving the
others and the running-action flag untouched, the pending size dropping
by exactly the returned count; cancel with the empty identifier clears
all pending entries and returns the former count. -/
theorem cancel_removes_matching :
    ∀ (s : ActionQueueState) (identifier : String),
      (identifier ≠ ("") →
        cancel s identifier =
          (s.pendingActions.countP (fun d => d.identifier == identifier),
           { s with
              pendingActions :=
                s.pendingActions.filter
                  (fun d => !(d.identifier == identifier)) })) ∧
      cancel s ("") = (s.pendingActions.length, { s with pendingActions := [] }) ∧
      (cancel s identifier).2.pendingActions.length + (cancel s identifier).1 =
        s.pendingActions.length ∧
      (cancel s identifier).2.runningAction = s.runningAction := by
  intro s identifier
  obtain ⟨mp, stq, wa, ra, pa⟩ := s
  refine ⟨?_, ?_, ?_, ?_⟩
  · intro hne
    cases pa with
    | nil => simp [cancel]
    | cons d rest =>
        simp [cancel, hne, cancelErase_spec]
  · cases pa with
    | nil => simp [cancel]
    | cons d rest => simp [cancel]
  · by_cases hne : identifier = ("")
    · subst hne
      cases pa with
      | nil => simp [cancel]
      | cons d rest => simp [cancel]
    · cases pa with
      | nil => simp [cancel]
      | cons d rest =>
          simp only [cancel, List.isEmpty_cons, if_neg hne, cancelErase_spec]
          simp only [Bool.false_eq_true, if_false]
          exact length_filter_not_add_countP
            (fun d => d.identifier == identifier) (d :: rest)
  · by_cases hne : identifier = ("")
    · subst hne
      cases pa with
      | nil => simp [cancel]
      | cons d rest => simp [cancel]
    · cases pa with
      | nil => simp [cancel]
      | cons d rest => simp [cancel, hne]

/-- C4 witness: a queue holding identifiers "x", "y", "x" while an action
runs; cancelling "x" removes the two matching entries and nothing else,
and cancelling the empty identifier clears the map. -/
theorem cancel_removes_matching_witness :
    cancel
        { maxPending := 9, stopping := false, waiting := false,
          runningAction := true,
          pendingActions := [⟨1, "x", 0⟩, ⟨2, "y", 1⟩, ⟨3, "x", 2⟩] } ("x") =
      (([⟨1, "x", 0⟩, ⟨2, "y", 1⟩, ⟨3, "x", 2⟩] : List ActionDetails).countP
        (fun d => d.identifier == ("x")),
       { maxPending := 9, stopping := false, waiting := false,
         runningAction := true,
         pendingActions :=
           ([⟨1, "x", 0⟩, ⟨2, "y", 1⟩, ⟨3, "x", 2⟩] : List ActionDetails).filter
             (fun d => !(d.identifier == ("x"))) }) ∧
    cancel
        { maxPending := 9, stopping := false, waiting := false,
          runningAction := true,
          pendingActions := [⟨1, "x", 0⟩, ⟨2, "y", 1⟩, ⟨3, "x", 2⟩] } ("") =
      (([⟨1, "x", 0⟩, ⟨2, "y", 1⟩, ⟨3, "x", 2⟩] : List ActionDetails).length,
       { maxPending := 9, stopping := false, waiting := false,
         runningAction := true, pendingActions := [] }) := by
  refine ⟨(cancel_removes_matching
      { maxPending := 9, stopping := false, waiting := false,
        runningAction := true,
        pendingActions := [⟨1, "x", 0⟩, ⟨2, "y", 1⟩, ⟨3, "x", 2⟩] }
      ("x")).1 (by decide),
    (cancel_removes_matching
      { maxPending := 9, stopping := false, waiting := false,
        runningAction := true,
        pendingActions := [⟨1, "x", 0⟩, ⟨2, "y", 1⟩, ⟨3, "x", 2⟩] }
      ("x")).2.1⟩

/-- C5: on a live (not stopping) queue, the predicate on which wait blocks
can only release the caller when the pending map is empty and no action
is executing, so at the moment wait returns both asserted postconditions
hold.  The queue object sets stopping only in its destructor; the wait
predicate also releases on stopping, which is outside the lifetime the
claim speaks about. -/
theorem wait_exit_postconditions :
    ∀ s : ActionQueueState, s.stopping = false → waitExitCondition s = true →
      s.pendingActions = [] ∧ s.runningAction = false := by
  intro s h1 h2
  rw [waitExitCondition, h1] at h2
  simp only [Bool.false_or, Bool.and_eq_true, Bool.not_eq_true'] at h2
  refine ⟨?_, h2.2⟩
  cases hl : s.pendingActions with
  | nil => rfl
  | cons a l =>
      rw [hl] at h2
      simp at h2

/-- C5 witness: an idle queue with nothing pending satisfies the wait exit
predicate and both postconditions. -/
theorem wait_exit_postconditions_witness :
    ({ maxPending := 3, stopping := false, waiting := true,
       runningAction := false,
       pendingActions := [] } : ActionQueueState).pendingActions = [] ∧
    ({ maxPending := 3, stopping := false, waiting := true,
       runningAction := false,
       pendingActions := [] } : ActionQueueState).runningAction = false :=
  wait_exit_postconditions
    { maxPending := 3, stopping := false, waiting := true,
      runningAction := false, pendingActions := [] } rfl rfl

/-- C10: once the destructor has set the stopping flag, addActionAfter
returns normally, inserts nothing and reports no error: the state is
unchanged and no system_error is produced. -/
theorem addActionAfter_stopping_drops :
    ∀ (s : ActionQueueState) (nowT delay : Nat) (identifier : String)
      (action : Nat),
      s.stopping = true →
      addActionAfter s nowT delay identifier action = (s, none) := by
  intro s nowT delay identifier action h
  simp [addActionAfter, addActionDetails, h]

/-- C10 witness: a stopped queue silently drops a submission even though it
is neither full nor draining. -/
theorem addActionAfter_stopping_drops_witness :
    addActionAfter
        { maxPending := 5, stopping := true, waiting := false,
          runningAction := false, pendingActions := [] } 3 2 ("tag") 0 =
      ({ maxPending := 5, stopping := true, waiting := false,
         runningAction := false, pendingActions := [] }, none) :=
  addActionAfter_stopping_drops
    { maxPending := 5, stopping := true, waiting := false,
      runningAction := false, pendingActions := [] } 3 2 ("tag") 0 rfl

/-- C2 counterexample: the claim states that the predicate is consulted
once more immediately before a timeout is declared, so the call never
returns false while the predicate already holds.  In the code a cv
timeout returns false at once: here the predicate holds at the moment of
the timed-out wake (it became true before the deadline, the notify
losing the race), yet waitFor returns false — in both revisions. -/
theorem conditionWaitFor_timeout_counterexample :
    conditionWaitFor false CvStatus.timeout true = false ∧
    conditionWaitForChecked false false CvStatus.timeout true = false :=
  ⟨rfl, rfl⟩

/-- C2 (amended): waitFor and waitUntil return true exactly when the
predicate was already true at the locked entry sample, or the cv wait
ended without timeout and the predicate is true at the post-wake sample;
a timed-out wait returns false immediately, ignoring the predicate, so
the result on the timeout path depends only on the entry sample.  The
first revision differs from the second only by one extra leading
predicate sample. -/
theorem conditionWaitFor_true_iff :
    ∀ (predAtEntry : Bool) (waitResult : CvStatus) (predAtWake : Bool),
      (conditionWaitFor predAtEntry waitResult predAtWake = true ↔
        predAtEntry = true ∨
          (waitResult = CvStatus.no_timeout ∧ predAtWake = true)) ∧
      conditionWaitFor predAtEntry CvStatus.timeout predAtWake = predAtEntry ∧
      conditionWaitForChecked false predAtEntry waitResult predAtWake =
        conditionWaitFor predAtEntry waitResult predAtWake := by
  intro predAtEntry waitResult predAtWake
  cases predAtEntry <;> cases waitResult <;> cases predAtWake <;>
    simp [conditionWaitFor, conditionWaitForChecked]

/-- C6 counterexample: the claim states that after a retryable EAGAIN
failure the wrapper sleeps one interval and retries exactly once.  With
the queue reporting EAGAIN twice and then accepting, the wrapper makes
three submission attempts (two retries, not one) and runs the user
action three times, because the retry re-invokes the whole wrapper. -/
theorem runActionAndRequeue_retry_counterexample :
    runActionAndRequeue false
        [AddOutcome.err ⟨EAGAIN, "addActionAfter"⟩,
         AddOutcome.err ⟨EAGAIN, "addActionAfter"⟩,
         AddOutcome.ok] =
      RunResult.done 3 3 2 :=
  rfl

/-- C6 (amended): on an EAGAIN failure the wrapper sleeps one interval and
re-invokes itself, re-running the user action and re-attempting the
submission, and it keeps doing so for every further EAGAIN (k consecutive
EAGAIN outcomes give k sleeps and k+1 attempts and k+1 user-action runs);
a system_error whose code is not EAGAIN propagates to the caller
unchanged after a single attempt. -/
theorem runActionAndRequeue_retry_behaviour :
    (∀ k : Nat,
      runActionAndRequeue false
          (List.replicate k (AddOutcome.err ⟨EAGAIN, "addActionAfter"⟩) ++
            [AddOutcome.ok]) =
        RunResult.done (k + 1) (k + 1) k) ∧
    (∀ (e : SysError) (rest : List AddOutcome), e.code ≠ EAGAIN →
      runActionAndRequeue false (AddOutcome.err e :: rest) =
        RunResult.propagated e 1 1) := by
  constructor
  · intro k
    induction k with
    | zero => rfl
    | succ k ih =>
        simp [runActionAndRequeue, List.replicate_succ, ih]
  · intro e rest he
    simp [runActionAndRequeue, he]

/-- C6 witness: one EAGAIN then success gives two attempts and one sleep; a
non-EAGAIN error with code 5 propagates unchanged. -/
theorem runActionAndRequeue_retry_behaviour_witness :
    runActionAndRequeue false
        (List.replicate 1 (AddOutcome.err ⟨EAGAIN, "addActionAfter"⟩) ++
          [AddOutcome.ok]) =
      RunResult.done 2 2 1 ∧
    runActionAndRequeue false [AddOutcome.err ⟨5, "boom"⟩] =
      RunResult.propagated ⟨5, "boom"⟩ 1 1 :=
  ⟨runActionAndRequeue_retry_behaviour.1 1,
   runActionAndRequeue_retry_behaviour.2 ⟨5, "boom"⟩ [] (by decide)⟩

/-- C7: a Barrier party whose own increment reaches the threshold n sees
the check performed immediately after incrementing: it wakes all waiters,
returns true and does not decrement, whatever the cv would have reported;
and a party that waited and timed out decrements the counter it had
incremented (here with no interference, so the observed counters equal
its own increment), leaving the counter at its entry value and returning
false, so the timed-out party does not count toward the threshold of a
later full arrival.  Covers waitFor and waitUntil, which differ only in
the cv call producing the CvStatus. -/
theorem barrierWaitFor_timeout_decrement :
    (∀ (s : BarrierState) (counterAtRelock : Nat) (waitResult : CvStatus)
      (counterAtWake : Nat),
      s.n ≤ s.counter + 1 →
      barrierWaitFor s counterAtRelock waitResult counterAtWake =
        ⟨true, s.counter + 1, true⟩) ∧
    (∀ s : BarrierState, s.counter + 1 < s.n →
      barrierWaitFor s (s.counter + 1) CvStatus.timeout (s.counter + 1) =
        ⟨false, s.counter, false⟩) := by
  constructor
  · intro s counterAtRelock waitResult counterAtWake h
    simp [barrierWaitFor, incrementCounterAndCheck, h]
  · intro s h
    have hnot : ¬ s.n ≤ s.counter + 1 := Nat.not_le.mpr h
    have hres : decide (s.n ≤ s.counter + 1 - 1) = false := by
      simp only [Nat.add_sub_cancel]
      exact decide_eq_false (Nat.not_le.mpr (Nat.lt_of_succ_lt h))
    simp [barrierWaitFor, incrementCounterAndCheck, hnot, h,
      Nat.add_sub_cancel, Nat.lt_of_succ_lt h]

/-- C7 witness: with n = 3, a party arriving third releases everyone and
keeps the counter at 3; with n = 3 and an empty barrier, a lone party
that times out restores the counter to 0 and returns false. -/
theorem barrierWaitFor_timeout_decrement_witness :
    barrierWaitFor ⟨2, 3⟩ 0 CvStatus.timeout 0 = ⟨true, 3, true⟩ ∧
    barrierWaitFor ⟨0, 3⟩ 1 CvStatus.timeout 1 = ⟨false, 0, false⟩ :=
  ⟨barrierWaitFor_timeout_decrement.1 ⟨2, 3⟩ 0 CvStatus.timeout 0 (by decide),
   barrierWaitFor_timeout_decrement.2 ⟨0, 3⟩ (by decide)⟩

/-- C8: when a cancellable region that registered its handlers through
onInterrupted (the thread-local list being cleared on region entry) is
cancelled, the cleanup walk invokes the handlers exactly as registered:
the invocation trace equals the registration sequence, so each handler
runs exactly once (its trace count equals its registration count) and in
registration order, the first-registered handler first. -/
theorem cleanup_runs_handlers_in_order :
    ∀ handlers : List Nat,
      cleanup (registerAll handlers) = handlers ∧
      ∀ h : Nat,
        (cleanup (registerAll handlers)).count h = handlers.count h := by
  intro handlers
  have hreg : registerAll handlers = handlers := by
    rw [registerAll, foldl_onInterrupted]
    simp
  rw [hreg, cleanup_eq]
  exact ⟨rfl, fun h => rfl⟩

/-- C9 counterexample: the claim states the cancelled region exits
normally after the handlers run.  On the Linux branch of doCall the
forced unwind is rethrown past the region, the thread terminating, so
the region does not exit normally there (one registered handler, which
does run). -/
theorem doCall_linux_counterexample :
    isNormalReturn (doCall OsKind.linuxOs [1] BodyOutcome.cancelled) = false ∧
    doCall OsKind.linuxOs [1] BodyOutcome.cancelled =
      DoCallResult.threadUnwind [1] :=
  ⟨rfl, rfl⟩

/-- C9 (amended): when the body is cancelled the registered handlers run
(in order) and the cancellation is never rethrown to the caller as an
ordinary catchable error; on the Apple branch the cancellation is
absorbed at the doCall boundary and the region exits normally, while on
the Linux branch the forced unwind is rethrown and continues past the
region, unwinding the whole thread.  An ordinary exception from the body
propagates to the caller unchanged, without running the handlers. -/
theorem doCall_cancellation_behaviour :
    ∀ (p : OsKind) (fns : List Nat) (e : Nat),
      doCall OsKind.appleOs fns BodyOutcome.cancelled =
        DoCallResult.normalReturn (cleanup fns) ∧
      doCall OsKind.linuxOs fns BodyOutcome.cancelled =
        DoCallResult.threadUnwind (cleanup fns) ∧
      isRaised (doCall p fns BodyOutcome.cancelled) = false ∧
      doCall p fns (BodyOutcome.error e) = DoCallResult.raised e [] := by
  intro p fns e
  refine ⟨rfl, rfl, ?_, ?_⟩ <;> cases p <;> rfl

end KssThread
